import Mathlib

/-!
Shallow embedding of the core of the `ssh-hub` SSH gateway (Rust) and proofs
about it.  Each Lean definition is translated from the named Rust source
function; machine integers become `Nat`/`Int`, fallible code returns
`Except`/`Option`, and the concurrent state (connection pool, registry,
mtime bookmark) is passed explicitly.
-/

namespace SshHub

/-! ## §1 Shell/path utilities — `src/utils/path.rs` -/

/-- One step of Rust `str::replace('\x27', ...)` with a char pattern:
each occurrence of the single-quote char expands to the four characters
quote, backslash, quote, quote. -/
def escapeQuoteChar (c : Char) : List Char :=
  if c = '\'' then ['\'', '\\', '\'', '\''] else [c]

/-- Models Rust `s.replace('\x27', r)` for the single-quote pattern used in
`shell_escape`: replace every occurrence of the quote character. -/
def rustReplaceQuote (s : String) : String :=
  String.mk (s.data.flatMap escapeQuoteChar)

/-- `shell_escape` from `src/utils/path.rs`: wrap in single quotes with
internal quotes escaped. -/
def shell_escape (s : String) : String :=
  String.mk ['\''] ++ rustReplaceQuote s ++ String.mk ['\'']

/-- `shell_escape_remote_path` from `src/utils/path.rs`: `~` becomes `$HOME`,
a `~/rest` prefix becomes `$HOME/` followed by the escaped rest, anything
else is escaped whole.  The `strip_prefix` call is modelled by matching the
first two characters. -/
def shell_escape_remote_path (p : String) : String :=
  if p = String.mk ['~'] then "$HOME"
  else
    match p.data with
    | '~' :: '/' :: rest => "$HOME/" ++ shell_escape (String.mk rest)
    | _ => shell_escape p

/-! ## §2 Connection-string parsing — `src/cli/connection.rs` -/

/-- Rust `str::split_once(sep)` on character lists: split at the first
occurrence of `sep`, or `none` when absent. -/
def splitOnceChar (sep : Char) : List Char → Option (List Char × List Char)
  | [] => none
  | c :: rest =>
    if c = sep then some ([], rest)
    else
      match splitOnceChar sep rest with
      | some (l, r) => some (c :: l, r)
      | none => none

/-- Rust `str::split_once(sep)` lifted to `String`. -/
def strSplitOnce (s : String) (sep : Char) : Option (String × String) :=
  match splitOnceChar sep s.data with
  | some (l, r) => some (String.mk l, String.mk r)
  | none => none

/-- Value of a digit run, or `none` when empty or containing a non-digit. -/
def digitsVal (l : List Char) : Option Nat :=
  if l.isEmpty then none
  else if l.all Char.isDigit then
    some (l.foldl (fun acc c => acc * 10 + (c.toNat - 48)) 0)
  else none

/-- Rust `str::parse::<u16>()`: optional leading plus sign, then decimal
digits, value at most 65535. -/
def parseU16 (s : String) : Option Nat :=
  let l := match s.data with
    | '+' :: rest => rest
    | l => l
  match digitsVal l with
  | some v => if v ≤ 65535 then some v else none
  | none => none

/-- `ConnectionInfo` from `src/cli/connection.rs`. -/
structure ConnectionInfo where
  user : String
  host : String
  port : Nat
  remote_path : String
deriving DecidableEq, Repr

/-- True when the string begins with a slash (Rust `starts_with('/')`). -/
def startsWithSlash (s : String) : Bool :=
  match s.data with
  | '/' :: _ => true
  | _ => false

/-- `parse_connection_string` from `src/cli/connection.rs`, branch by branch.
Error messages are abbreviated renderings of the Rust `anyhow!` messages. -/
def parse_connection_string (conn : String) (portOverride : Option Nat) :
    Except String ConnectionInfo :=
  let userHostRest : String × String :=
    match strSplitOnce conn ':' with
    | some parts => parts
    | none => (conn, "")
  match strSplitOnce userHostRest.1 '@' with
  | none => .error "missing at sign in user-host"
  | some (user, host) =>
    if user = "" then .error "empty username"
    else if host = "" then .error "empty hostname"
    else
      let rest := userHostRest.2
      let portPath : Except String (Nat × String) :=
        if rest = "" then .ok (22, String.mk ['~'])
        else if startsWithSlash rest then .ok (22, rest)
        else
          match strSplitOnce rest ':' with
          | some (portStr, path) =>
            match parseU16 portStr with
            | none => .error "invalid port number"
            | some port =>
              if path = "" then .ok (port, String.mk ['~'])
              else if startsWithSlash path then .ok (port, path)
              else .error "path must start with a slash"
          | none =>
            match parseU16 rest with
            | none => .error "not a port number or path"
            | some port => .ok (port, String.mk ['~'])
      match portPath with
      | .error e => .error e
      | .ok (port, remotePath) =>
        .ok ⟨user, host,
             (match portOverride with
              | some p => p
              | none => port),
             remotePath⟩

/-! ## §3 Connection pool — `src/connection/pool.rs` and `src/server.rs` -/

/-- A pooled `Arc<SshConnection>` handle: `id` models pointer identity
(`Arc::ptr_eq` compares ids) and `closed` the value its `is_closed()`
reports to the caller. -/
structure Handle where
  id : Nat
  closed : Bool
deriving DecidableEq, Repr

/-- The pool's `connections` map, alias to stored handle. -/
abbrev Pool := String → Option Handle

/-- Point update of the pool map (`HashMap::insert` / `HashMap::remove`). -/
def poolUpdate (p : Pool) (name : String) (v : Option Handle) : Pool :=
  fun n => if n = name then v else p n

/-- The write-locked eviction block of `ConnectionPool::get`
(src/connection/pool.rs lines 47-54), run after the caller observed the
closed handle `c`: re-read the entry and remove it only when it is still the
same connection object. `pAtWrite` is the map contents at write-lock time,
which another task may have changed since the read. -/
def poolGetEvict (pAtWrite : Pool) (name : String) (c : Handle) : Pool :=
  match pAtWrite name with
  | some current =>
    if current.id = c.id then poolUpdate pAtWrite name none else pAtWrite
  | none => pAtWrite

/-- `ConnectionPool::get` (src/connection/pool.rs lines 38-60): read the
entry, and when it reports closed, evict under the write lock (identity
guarded) and return none. `pAtRead` and `pAtWrite` are the map contents at
the read and at the later write-lock acquisition. Returns the handle handed
to the caller and the resulting map. -/
def poolGet (pAtRead pAtWrite : Pool) (name : String) : Option Handle × Pool :=
  match pAtRead name with
  | some c =>
    if c.closed then (none, poolGetEvict pAtWrite name c) else (some c, pAtWrite)
  | none => (none, pAtWrite)

/-- `RemoteSessionServer::cleanup_if_dead` (src/server.rs lines 204-209):
after a call, if the observed connection reports closed, remove the alias
from the pool — `pool.remove(server)` with no identity check. -/
def cleanup_if_dead (p : Pool) (name : String) (conn : Handle) : Pool :=
  if conn.closed then poolUpdate p name none else p

/-! ## §4 Server registry and hot-reload diff — `src/server_registry.rs`,
`src/server.rs` -/

/-- `AuthMethod` from `src/server_registry.rs`. -/
inductive AuthMethod
  | auto
  | agent
  | key
deriving DecidableEq, Repr

/-- `SystemMetadata` from `src/metadata.rs`: captured system facts. -/
structure SystemMetadata where
  os : Option String
  distro : Option String
  arch : Option String
  shell : Option String
  package_manager : Option String
  collected_at : Option Nat
deriving DecidableEq, Repr

/-- `ServerEntry` from `src/server_registry.rs`. -/
structure ServerEntry where
  host : String
  user : String
  port : Nat
  remote_path : String
  identity : Option String
  auth : AuthMethod
  metadata : Option SystemMetadata
deriving DecidableEq, Repr

/-- The registry's `servers` map as an association list (the `HashMap` has
unique keys; iteration order is irrelevant to the properties proved). -/
abbrev Registry := List (String × ServerEntry)

/-- `HashMap::get` on the registry. -/
def regLookup : Registry → String → Option ServerEntry
  | [], _ => none
  | (n, e) :: rest, name => if n = name then some e else regLookup rest name

/-- True when any of the six connection-relevant fields differ. -/
def connectionFieldsDiffer (a b : ServerEntry) : Bool :=
  decide (a.host ≠ b.host) || decide (a.user ≠ b.user) ||
  decide (a.port ≠ b.port) || decide (a.remote_path ≠ b.remote_path) ||
  decide (a.identity ≠ b.identity) || decide (a.auth ≠ b.auth)

/-- Modelled from the spec: `ServerRegistry::changed_servers` is called by
`RemoteSessionServer::maybe_reload_config` (src/server.rs line 255) but its
definition is not under src/. Per the spec it enumerates aliases where any
of host, user, port, remote_path, identity, auth differ, plus aliases
removed in the new registry; metadata changes do not trigger eviction. -/
def changed_servers (old new : Registry) : List String :=
  old.filterMap fun p =>
    match regLookup new p.1 with
    | none => some p.1
    | some e2 => if connectionFieldsDiffer p.2 e2 then some p.1 else none

/-- The eviction loop of `maybe_reload_config` (src/server.rs lines 277-286):
`pool.remove(name)` for every name in the evict list. -/
def evictAll (p : Pool) (names : List String) : Pool :=
  names.foldl (fun acc n => poolUpdate acc n none) p

/-- Pointwise effect of the eviction loop: evicted aliases map to none,
all others keep their entry. -/
theorem evictAll_apply (names : List String) :
    ∀ (p : Pool) (a : String),
      evictAll p names a = if a ∈ names then none else p a := by
  induction names with
  | nil => intro p a; simp [evictAll]
  | cons n rest ih =>
    intro p a
    show evictAll (poolUpdate p n none) rest a = _
    rw [ih]
    by_cases hmem : a ∈ rest
    · simp [hmem]
    · by_cases han : a = n <;> simp [hmem, han, poolUpdate]

/-! ## Theorems for the pool eviction claims -/

/-- C1 counterexample: the dispatcher's post-call cleanup is not
identity-guarded.  The pool holds a fresh handle (id 2, open) under alias
`prod`; the caller observed a different closed handle (id 1); yet
`cleanup_if_dead` removes the fresh handle. -/
theorem c1_counterexample :
    poolUpdate (fun _ => none) "prod" (some ⟨2, false⟩) "prod" = some ⟨2, false⟩ ∧
    (Handle.mk 2 false).id ≠ (Handle.mk 1 true).id ∧
    cleanup_if_dead (poolUpdate (fun _ => none) "prod" (some ⟨2, false⟩))
      "prod" ⟨1, true⟩ "prod" = none := by
  refine ⟨by simp [poolUpdate], by decide, by simp [cleanup_if_dead, poolUpdate]⟩

/-- C1 (amended): `ConnectionPool::get`'s eviction is identity-guarded — a
handle that differs from the one the caller observed is never removed, and
a stored handle identity-equal to the observed closed one is removed — but
the dispatcher's post-call cleanup after `with_connection` removes the
alias's entry unconditionally whenever the handle it observed reports
closed, even when a different fresh handle is pooled under that alias. -/
theorem c1_eviction_guard_amended :
    (∀ (pAtWrite : Pool) (name : String) (c h : Handle),
      pAtWrite name = some h → h.id ≠ c.id →
      poolGetEvict pAtWrite name c name = some h) ∧
    (∀ (pAtRead pAtWrite : Pool) (name : String) (c h : Handle),
      pAtRead name = some c → c.closed = true →
      pAtWrite name = some h → h.id = c.id →
      (poolGet pAtRead pAtWrite name).2 name = none) ∧
    (∀ (p : Pool) (name : String) (conn : Handle),
      conn.closed = true → cleanup_if_dead p name conn name = none) := by
  refine ⟨?_, ?_, ?_⟩
  · intro pw name c h hstore hne
    simp [poolGetEvict, hstore, hne]
  · intro pr pw name c h hread hclosed hstore hid
    simp [poolGet, poolGetEvict, hread, hclosed, hstore, hid, poolUpdate]
  · intro p name conn hclosed
    simp [cleanup_if_dead, hclosed, poolUpdate]

/-- Witness for C1 (amended): the three conjuncts applied at concrete pools
and handles. -/
theorem c1_eviction_guard_amended_witness :
    poolGetEvict (poolUpdate (fun _ => none) "a" (some ⟨2, false⟩)) "a" ⟨1, true⟩ "a"
      = some ⟨2, false⟩ ∧
    (poolGet (poolUpdate (fun _ => none) "a" (some ⟨1, true⟩))
      (poolUpdate (fun _ => none) "a" (some ⟨1, true⟩)) "a").2 "a" = none ∧
    cleanup_if_dead (poolUpdate (fun _ => none) "a" (some ⟨2, false⟩)) "a" ⟨1, true⟩ "a"
      = none := by
  refine ⟨c1_eviction_guard_amended.1 _ "a" ⟨1, true⟩ ⟨2, false⟩ (by simp [poolUpdate]) (by decide),
          c1_eviction_guard_amended.2.1 _ _ "a" ⟨1, true⟩ ⟨1, true⟩
            (by simp [poolUpdate]) rfl (by simp [poolUpdate]) rfl,
          c1_eviction_guard_amended.2.2 _ "a" ⟨1, true⟩ rfl⟩

/-! ## Theorems for the registry diff claim -/

/-- C2: `changed_servers(old, new)` contains exactly the aliases whose
connection-relevant fields (host, user, port, remote_path, identity, auth)
differ or that are absent from the new registry; registries whose entries
agree on all connection-relevant fields (e.g. differing only in metadata)
yield an empty list; and the hot-reload eviction loop removes exactly the
returned aliases from the pool while every other alias keeps its pooled
session. -/
theorem c2_changed_servers_spec :
    (∀ (old new : Registry) (a : String),
      a ∈ changed_servers old new ↔
        ∃ e, (a, e) ∈ old ∧
          (regLookup new a = none ∨
           ∃ e2, regLookup new a = some e2 ∧ connectionFieldsDiffer e e2 = true)) ∧
    (∀ old new : Registry,
      (∀ p ∈ old, ∃ e2, regLookup new p.1 = some e2 ∧
        connectionFieldsDiffer p.2 e2 = false) →
      changed_servers old new = []) ∧
    (∀ (p : Pool) (old new : Registry) (a : String),
      evictAll p (changed_servers old new) a
        = if a ∈ changed_servers old new then none else p a) := by
  refine ⟨?_, ?_, ?_⟩
  · intro old new a
    unfold changed_servers
    rw [List.mem_filterMap]
    constructor
    · rintro ⟨⟨n, e⟩, hmem, hf⟩
      dsimp only at hf
      rcases hlk : regLookup new n with _ | e2 <;> rw [hlk] at hf
      · simp only [Option.some.injEq] at hf
        subst hf
        exact ⟨e, hmem, Or.inl hlk⟩
      · by_cases hc : connectionFieldsDiffer e e2 = true
        · simp only [hc, if_true, Option.some.injEq] at hf
          subst hf
          exact ⟨e, hmem, Or.inr ⟨e2, hlk, hc⟩⟩
        · simp [hc] at hf
    · rintro ⟨e, hmem, hcond⟩
      refine ⟨(a, e), hmem, ?_⟩
      dsimp only
      rcases hcond with hnone | ⟨e2, hlk, hc⟩
      · rw [hnone]
      · simp [hlk, hc]
  · intro old new hall
    unfold changed_servers
    rw [List.filterMap_eq_nil_iff]
    intro p hp
    obtain ⟨e2, hlk, hc⟩ := hall p hp
    simp [hlk, hc]
  · intro p old new a
    exact evictAll_apply (changed_servers old new) p a

/-- Witness for C2: a registry pair differing only in metadata for alias
`prod` (the spec's scenario 6) produces an empty evict list, the
characterization holds at a removed alias, and eviction leaves an unchanged
alias's session in place. -/
theorem c2_changed_servers_spec_witness :
    ("gone" ∈ changed_servers
        [("gone", ⟨"h", "u", 22, "/x", none, .auto, none⟩)] [] ↔
      ∃ e, ("gone", e) ∈
          ([("gone", ⟨"h", "u", 22, "/x", none, .auto, none⟩)] : Registry) ∧
        (regLookup [] "gone" = none ∨
         ∃ e2, regLookup [] "gone" = some e2 ∧ connectionFieldsDiffer e e2 = true)) ∧
    changed_servers
      [("prod", ⟨"h", "u", 22, "/x", none, .auto, none⟩)]
      [("prod", ⟨"h", "u", 22, "/x", none, .auto,
        some ⟨some "linux", none, none, none, none, none⟩⟩)] = [] ∧
    evictAll (fun _ => none)
      (changed_servers
        [("prod", ⟨"h", "u", 22, "/x", none, .auto, none⟩)]
        [("prod", ⟨"h", "u", 22, "/x", none, .auto, none⟩)]) "prod"
      = if "prod" ∈ changed_servers
          [("prod", ⟨"h", "u", 22, "/x", none, .auto, none⟩)]
          [("prod", ⟨"h", "u", 22, "/x", none, .auto, none⟩)]
        then none else (fun _ => none : Pool) "prod" := by
  refine ⟨c2_changed_servers_spec.1 _ _ "gone", ?_, c2_changed_servers_spec.2.2 _ _ _ "prod"⟩
  refine c2_changed_servers_spec.2.1 _ _ ?_
  intro p hp
  simp only [List.mem_singleton] at hp
  subst hp
  exact ⟨⟨"h", "u", 22, "/x", none, .auto,
    some ⟨some "linux", none, none, none, none, none⟩⟩, rfl, by decide⟩

/-! ## §5 Authentication ladder — `src/connection/auth.rs`

The SSH server, agent and filesystem are the environment: each candidate
key records whether it loads from disk, whether its algorithm is RSA and
whether the server accepts it; the server's answer to
`best_supported_rsa_hash` is a fixed value of the environment.  The model
returns the Rust function's result together with the trace of externally
visible actions: hash queries and per-key `authenticate_publickey` attempts
(with the hash hint passed). -/

/-- `russh::keys::HashAlg` (the RSA signature hashes). -/
inductive HashAlg
  | sha256
  | sha512
deriving DecidableEq, Repr

/-- A private-key file as the environment presents it: `loads` is whether
`load_secret_key` succeeds, `accepted` whether the server accepts it. -/
structure KeyFile where
  isRsa : Bool
  loads : Bool
  accepted : Bool
deriving DecidableEq, Repr

/-- An agent-held key: the agent always yields it, the server may accept. -/
structure AgentKey where
  isRsa : Bool
  accepted : Bool
deriving DecidableEq, Repr

/-- The environment of one `authenticate` run. `rsaQuery` is the result of
`session.best_supported_rsa_hash()`: error, or no advertisement (`ok none`),
or an advertised best hash (`ok (some h)`, where `h = none` means the server
only supports the SHA-1 form). -/
structure AuthEnv where
  identity : Option KeyFile
  agentOk : Bool
  agentKeys : List AgentKey
  defaultKey : String → Option KeyFile
  rsaQuery : Except Unit (Option (Option HashAlg))

/-- Which rung produced an attempt. -/
inductive AuthSource
  | identityFile
  | agent
  | defaultKey (name : String)
deriving DecidableEq, Repr

/-- Externally visible actions of the authenticator: a
`best_supported_rsa_hash` query, or one `authenticate_publickey` attempt
(recording the key's rung, index, algorithm class, the server's verdict and
the hash hint passed). -/
inductive AuthEvent
  | rsaQuery
  | attempt (src : AuthSource) (idx : Nat) (isRsa : Bool) (accepted : Bool)
      (hash : Option HashAlg)
deriving DecidableEq, Repr

/-- `query_rsa_hash` from `src/connection/auth.rs` lines 85-100: the server's
advertised best hash, defaulting to SHA-256 when it does not advertise or
the query fails. -/
def query_rsa_hash : Except Unit (Option (Option HashAlg)) → Option HashAlg
  | .ok (some h) => h
  | .ok none => some .sha256
  | .error _ => some .sha256

/-- `rsa_hash_for_key` from `src/connection/auth.rs` lines 103-109: the
cached hash for RSA keys, no hint otherwise. -/
def rsa_hash_for_key (isRsa : Bool) (cached : Option HashAlg) : Option HashAlg :=
  if isRsa then cached else none

/-- `try_key_auth` from `src/connection/auth.rs` lines 173-207: load the key
(a failure to load yields `false` without contacting the server), query the
RSA hash, attempt the key with the hash hint. -/
def try_key_auth (env : AuthEnv) (src : AuthSource) (k : KeyFile) :
    Bool × List AuthEvent :=
  if k.loads then
    (k.accepted,
     [.rsaQuery,
      .attempt src 0 k.isRsa k.accepted
        (rsa_hash_for_key k.isRsa (query_rsa_hash env.rsaQuery))])
  else (false, [])

/-- `MAX_AGENT_KEYS` from `src/connection/auth.rs` line 112. -/
def MAX_AGENT_KEYS : Nat := 10

/-- The key loop of `try_agent_auth` (src/connection/auth.rs lines 136-165):
attempt each key with the cached hash, stopping at the first acceptance. -/
def agentLoop (cached : Option HashAlg) : List AgentKey → Nat → Bool × List AuthEvent
  | [], _ => (false, [])
  | k :: rest, i =>
    let ev := AuthEvent.attempt .agent i k.isRsa k.accepted
      (rsa_hash_for_key k.isRsa cached)
    if k.accepted then (true, [ev])
    else
      let r := agentLoop cached rest (i + 1)
      (r.1, ev :: r.2)

/-- `try_agent_auth` from `src/connection/auth.rs` lines 115-170: connect to
the agent, list keys, fail when there are none, otherwise query the RSA hash
once and try the first `MAX_AGENT_KEYS` keys with the cached value. -/
def try_agent_auth (env : AuthEnv) : Bool × List AuthEvent :=
  if env.agentOk then
    if env.agentKeys.isEmpty then (false, [])
    else
      let r := agentLoop (query_rsa_hash env.rsaQuery)
        (env.agentKeys.take MAX_AGENT_KEYS) 0
      (r.1, .rsaQuery :: r.2)
  else (false, [])

/-- The fixed default-key probe order of `authenticate_auto`
(src/connection/auth.rs line 62). -/
def defaultKeyNames : List String := ["id_ed25519", "id_rsa", "id_ecdsa"]

/-- The default-keys loop of `authenticate_auto` (src/connection/auth.rs
lines 62-74): for each name whose file exists, run `try_key_auth`. -/
def tryDefaults (env : AuthEnv) : List String → Bool × List AuthEvent
  | [] => (false, [])
  | n :: rest =>
    match env.defaultKey n with
    | none => tryDefaults env rest
    | some k =>
      let r := try_key_auth env (.defaultKey n) k
      if r.1 then r
      else
        let r2 := tryDefaults env rest
        (r2.1, r.2 ++ r2.2)

/-- `authenticate_auto` from `src/connection/auth.rs` lines 36-81: explicit
identity, then agent, then default keys; first acceptance wins; a terminal
failure carries the list of methods tried. -/
def authenticate_auto (env : AuthEnv) : Except (List String) Unit × List AuthEvent :=
  match env.identity with
  | some k =>
    let r1 := try_key_auth env .identityFile k
    if r1.1 then (.ok (), r1.2)
    else
      let r2 := try_agent_auth env
      if r2.1 then (.ok (), r1.2 ++ r2.2)
      else
        let r3 := tryDefaults env defaultKeyNames
        if r3.1 then (.ok (), r1.2 ++ r2.2 ++ r3.2)
        else (.error ["identity file", "agent", "default keys"],
              r1.2 ++ r2.2 ++ r3.2)
  | none =>
    let r2 := try_agent_auth env
    if r2.1 then (.ok (), r2.2)
    else
      let r3 := tryDefaults env defaultKeyNames
      if r3.1 then (.ok (), r2.2 ++ r3.2)
      else (.error ["agent", "default keys"], r2.2 ++ r3.2)

/-! ### The claim-side ladder (C4 is a refinement claim: `specLadder` is
written from the spec's words, to be compared with the model above). -/

/-- One server-side attempt as the spec describes it. -/
structure SpecAttempt where
  src : AuthSource
  idx : Nat
  isRsa : Bool
  accepted : Bool
deriving DecidableEq, Repr

/-- The agent rung of the spec ladder: keys in agent order with indices
starting at `i`. -/
def agentSpec : List AgentKey → Nat → List SpecAttempt
  | [], _ => []
  | k :: rest, i => ⟨.agent, i, k.isRsa, k.accepted⟩ :: agentSpec rest (i + 1)

/-- The identity rung of the spec ladder: the explicit identity when set and
loadable (a key that fails to load is a per-rung failure with no attempt). -/
def idSpec (env : AuthEnv) : List SpecAttempt :=
  match env.identity with
  | some k => if k.loads then [⟨.identityFile, 0, k.isRsa, k.accepted⟩] else []
  | none => []

/-- The agent rung of the spec ladder: the first ten agent keys, in the
agent's order. -/
def agentSpecOf (env : AuthEnv) : List SpecAttempt :=
  if env.agentOk then agentSpec (env.agentKeys.take 10) 0 else []

/-- The default-keys rung of the spec ladder: `id_ed25519`, `id_rsa`,
`id_ecdsa` in that order, for those that exist and load. -/
def defSpec (env : AuthEnv) (names : List String) : List SpecAttempt :=
  names.filterMap fun n =>
    match env.defaultKey n with
    | some k => if k.loads then some ⟨.defaultKey n, 0, k.isRsa, k.accepted⟩ else none
    | none => none

/-- The full credential ladder of the claim. -/
def specLadder (env : AuthEnv) : List SpecAttempt :=
  idSpec env ++ agentSpecOf env ++ defSpec env defaultKeyNames

/-- Truncate the ladder at the first accepted attempt (inclusive): the
attempts actually made when authentication succeeds at the first accept. -/
def takeToFirstAccept : List SpecAttempt → List SpecAttempt
  | [] => []
  | a :: rest => if a.accepted then [a] else a :: takeToFirstAccept rest

/-- Whether some attempt in the list is accepted. -/
def anyAccepted (l : List SpecAttempt) : Bool :=
  l.any fun a => a.accepted

/-- Projection of the event trace onto server-side attempts. -/
def attemptsOf (evs : List AuthEvent) : List SpecAttempt :=
  evs.filterMap fun e =>
    match e with
    | .attempt src idx isRsa accepted _ => some ⟨src, idx, isRsa, accepted⟩
    | .rsaQuery => none

/-- Number of `best_supported_rsa_hash` queries in a trace. -/
def countQueries (evs : List AuthEvent) : Nat :=
  evs.countP fun e =>
    match e with
    | .rsaQuery => true
    | _ => false

/-! ### Rung lemmas -/

theorem takeToFirstAccept_append (l1 l2 : List SpecAttempt) :
    takeToFirstAccept (l1 ++ l2) =
      if anyAccepted l1 then takeToFirstAccept l1
      else l1 ++ takeToFirstAccept l2 := by
  induction l1 with
  | nil => simp [anyAccepted, takeToFirstAccept]
  | cons a rest ih =>
    by_cases ha : a.accepted
    · simp [takeToFirstAccept, anyAccepted, ha]
    · have ha' : a.accepted = false := by
        cases h : a.accepted
        · rfl
        · exact absurd h ha
      have hany : anyAccepted (a :: rest) = anyAccepted rest := by
        simp [anyAccepted, ha']
      rw [List.cons_append, hany]
      by_cases hrest : anyAccepted rest
      · rw [if_pos hrest]
        simp only [takeToFirstAccept, ha', Bool.false_eq_true, if_false]
        rw [ih, if_pos hrest]
      · rw [if_neg hrest]
        simp only [takeToFirstAccept, ha', Bool.false_eq_true, if_false,
          List.cons_append]
        rw [ih, if_neg hrest]

theorem attemptsOf_append (e1 e2 : List AuthEvent) :
    attemptsOf (e1 ++ e2) = attemptsOf e1 ++ attemptsOf e2 := by
  simp [attemptsOf]

theorem key_rung (env : AuthEnv) (src : AuthSource) (k : KeyFile) :
    attemptsOf (try_key_auth env src k).2
      = (if k.loads then [⟨src, 0, k.isRsa, k.accepted⟩] else []) ∧
    (try_key_auth env src k).1
      = anyAccepted (if k.loads then [⟨src, 0, k.isRsa, k.accepted⟩] else []) := by
  by_cases hl : k.loads <;>
    simp [try_key_auth, attemptsOf, anyAccepted, hl]

theorem agent_rung (cached : Option HashAlg) :
    ∀ (keys : List AgentKey) (i : Nat),
      attemptsOf (agentLoop cached keys i).2 = takeToFirstAccept (agentSpec keys i) ∧
      (agentLoop cached keys i).1 = anyAccepted (agentSpec keys i) := by
  intro keys
  induction keys with
  | nil => intro i; simp [agentLoop, agentSpec, attemptsOf, anyAccepted, takeToFirstAccept]
  | cons k rest ih =>
    intro i
    by_cases hacc : k.accepted
    · simp [agentLoop, agentSpec, attemptsOf, anyAccepted, takeToFirstAccept, hacc]
    · simp only [agentLoop, agentSpec, hacc, Bool.false_eq_true, if_false]
      refine ⟨?_, ?_⟩
      · show attemptsOf (_ :: _) = _
        simp only [attemptsOf, List.filterMap_cons, takeToFirstAccept, hacc,
          Bool.false_eq_true, if_false]
        have := (ih (i + 1)).1
        simp only [attemptsOf] at this
        rw [this]
      · simp only [anyAccepted, List.any_cons, hacc, Bool.false_or]
        exact (ih (i + 1)).2

theorem try_agent_rung (env : AuthEnv) :
    attemptsOf (try_agent_auth env).2 = takeToFirstAccept (agentSpecOf env) ∧
    (try_agent_auth env).1 = anyAccepted (agentSpecOf env) := by
  unfold try_agent_auth agentSpecOf
  by_cases hok : env.agentOk
  · simp only [hok, if_true]
    by_cases hemp : env.agentKeys.isEmpty
    · have : env.agentKeys = [] := List.isEmpty_iff.mp hemp
      simp [hemp, this, agentSpec, attemptsOf, anyAccepted, takeToFirstAccept,
        MAX_AGENT_KEYS]
    · simp only [hemp, Bool.false_eq_true, if_false]
      have h := agent_rung (query_rsa_hash env.rsaQuery)
        (env.agentKeys.take MAX_AGENT_KEYS) 0
      refine ⟨?_, h.2⟩
      show attemptsOf (.rsaQuery :: _) = _
      simp only [attemptsOf, List.filterMap_cons]
      have := h.1
      simp only [attemptsOf] at this
      rw [this]
      rfl
  · simp [hok, agentSpec, attemptsOf, anyAccepted, takeToFirstAccept]

theorem defaults_rung (env : AuthEnv) :
    ∀ names : List String,
      attemptsOf (tryDefaults env names).2 = takeToFirstAccept (defSpec env names) ∧
      (tryDefaults env names).1 = anyAccepted (defSpec env names) := by
  intro names
  induction names with
  | nil => simp [tryDefaults, defSpec, attemptsOf, anyAccepted, takeToFirstAccept]
  | cons n rest ih =>
    rcases hdk : env.defaultKey n with _ | k
    · simpa [tryDefaults, defSpec, hdk] using ih
    · by_cases hl : k.loads
      · by_cases hacc : k.accepted
        · simp [tryDefaults, defSpec, hdk, hl, hacc, try_key_auth, attemptsOf,
            anyAccepted, takeToFirstAccept]
        · simp only [tryDefaults, defSpec, hdk, hl, hacc, try_key_auth,
            Bool.false_eq_true, if_true, if_false, List.filterMap_cons]
          refine ⟨?_, ?_⟩
          · rw [attemptsOf_append]
            simp only [attemptsOf, List.filterMap_cons, List.filterMap_nil,
              takeToFirstAccept, hacc, Bool.false_eq_true, if_false]
            have := ih.1
            simp only [attemptsOf, defSpec] at this
            rw [this]
            rfl
          · simp only [anyAccepted, List.any_cons, hacc, Bool.false_or]
            exact ih.2
      · simpa [tryDefaults, defSpec, hdk, hl, try_key_auth] using ih

theorem anyAccepted_append (l1 l2 : List SpecAttempt) :
    anyAccepted (l1 ++ l2) = (anyAccepted l1 || anyAccepted l2) := by
  simp [anyAccepted]

theorem takeToFirstAccept_of_none :
    ∀ {l : List SpecAttempt}, anyAccepted l = false → takeToFirstAccept l = l := by
  intro l
  induction l with
  | nil => intro _; rfl
  | cons a rest ih =>
    intro h
    have h' : (a.accepted || anyAccepted rest) = false := by
      rw [← h]; simp [anyAccepted]
    rcases Bool.or_eq_false_iff.mp h' with ⟨h1, h2⟩
    rw [takeToFirstAccept, h1]
    simp [ih h2]

theorem takeToFirstAccept_short :
    ∀ a : SpecAttempt, takeToFirstAccept [a] = [a] := by
  intro a
  by_cases h : a.accepted <;> simp [takeToFirstAccept, h]

theorem try_key_auth_src (env : AuthEnv) (src0 : AuthSource) (k : KeyFile) :
    ∀ src i b acc hsh, AuthEvent.attempt src i b acc hsh ∈ (try_key_auth env src0 k).2 →
      src = src0 := by
  intro src i b acc hsh hm
  by_cases hl : k.loads
  · simp [try_key_auth, hl] at hm
    exact hm.1
  · simp [try_key_auth, hl] at hm

theorem agentLoop_src_idx (cached : Option HashAlg) :
    ∀ (keys : List AgentKey) (i0 : Nat) src i b acc hsh,
      AuthEvent.attempt src i b acc hsh ∈ (agentLoop cached keys i0).2 →
        src = .agent ∧ i < i0 + keys.length := by
  intro keys
  induction keys with
  | nil => intro i0 src i b acc hsh hm; simp [agentLoop] at hm
  | cons k rest ih =>
    intro i0 src i b acc hsh hm
    by_cases hacc : k.accepted
    · simp [agentLoop, hacc] at hm
      obtain ⟨h1, h2, -⟩ := hm
      refine ⟨h1, ?_⟩
      simp only [List.length_cons]
      omega
    · simp only [agentLoop, hacc, Bool.false_eq_true, if_false] at hm
      rcases List.mem_cons.mp hm with h | h
      · obtain ⟨h1, h2, -⟩ := AuthEvent.attempt.inj h
        exact ⟨h1, by simp [List.length_cons]; omega⟩
      · obtain ⟨h1, h2⟩ := ih (i0 + 1) src i b acc hsh h
        exact ⟨h1, by simp [List.length_cons]; omega⟩

theorem try_agent_auth_src_idx (env : AuthEnv) :
    ∀ src i b acc hsh, AuthEvent.attempt src i b acc hsh ∈ (try_agent_auth env).2 →
      src = .agent ∧ i < 10 := by
  intro src i b acc hsh hm
  unfold try_agent_auth at hm
  by_cases hok : env.agentOk
  · simp only [hok, if_true] at hm
    by_cases hemp : env.agentKeys.isEmpty
    · simp [hemp] at hm
    · simp only [hemp, Bool.false_eq_true, if_false] at hm
      rcases List.mem_cons.mp hm with h | h
      · exact absurd h (by simp)
      · obtain ⟨h1, h2⟩ := agentLoop_src_idx _ _ _ _ _ _ _ _ h
        refine ⟨h1, ?_⟩
        have hlen : (env.agentKeys.take MAX_AGENT_KEYS).length ≤ 10 := by
          rw [List.length_take]
          simp [MAX_AGENT_KEYS]
        omega
  · simp [hok] at hm

theorem tryDefaults_src (env : AuthEnv) :
    ∀ (names : List String) src i b acc hsh,
      AuthEvent.attempt src i b acc hsh ∈ (tryDefaults env names).2 →
        ∃ n, src = .defaultKey n := by
  intro names
  induction names with
  | nil => intro src i b acc hsh hm; simp [tryDefaults] at hm
  | cons n rest ih =>
    intro src i b acc hsh hm
    rcases hdk : env.defaultKey n with _ | k
    · simp only [tryDefaults, hdk] at hm
      exact ih src i b acc hsh hm
    · by_cases hr : (try_key_auth env (.defaultKey n) k).1
      · simp only [tryDefaults, hdk, hr, if_true] at hm
        exact ⟨n, try_key_auth_src env _ k src i b acc hsh hm⟩
      · have hr' : (try_key_auth env (.defaultKey n) k).1 = false := by
          cases h : (try_key_auth env (.defaultKey n) k).1
          · rfl
          · exact absurd h hr
        simp only [tryDefaults, hdk, hr', Bool.false_eq_true, if_false] at hm
        rcases List.mem_append.mp hm with h | h
        · exact ⟨n, try_key_auth_src env _ k src i b acc hsh h⟩
        · exact ih src i b acc hsh h

/-! ## Theorems for the auto-auth ladder claim -/

/-- C4: with auth method `auto`, the server-side attempts are exactly the
claim's ladder — explicit identity when set, then the first ten agent keys
in agent order (an eleventh agent key is never attempted), then the default
keys `id_ed25519`, `id_rsa`, `id_ecdsa` that exist, keys failing to load
dropped as per-rung failures — truncated at the first accepted attempt;
authentication succeeds iff some ladder attempt is accepted; and a terminal
failure carries the list of methods tried. -/
theorem c4_auto_ladder (env : AuthEnv) :
    attemptsOf (authenticate_auto env).2 = takeToFirstAccept (specLadder env) ∧
    ((authenticate_auto env).1 = .ok () ↔ anyAccepted (specLadder env) = true) ∧
    (∀ src i b acc hsh,
      AuthEvent.attempt src i b acc hsh ∈ (authenticate_auto env).2 →
      src = .agent → i < 10) ∧
    (∀ ms, (authenticate_auto env).1 = .error ms →
      ms = (if env.identity.isSome then ["identity file"] else [])
            ++ ["agent", "default keys"]) := by
  have hA := try_agent_rung env
  have hD := defaults_rung env defaultKeyNames
  rcases hident : env.identity with _ | k
  · have hs1 : idSpec env = [] := by simp [idSpec, hident]
    simp only [authenticate_auto, hident]
    by_cases h2 : (try_agent_auth env).1
    · have ha2 : anyAccepted (agentSpecOf env) = true := by rw [← hA.2]; exact h2
      rw [if_pos h2]
      refine ⟨?_, ?_, ?_, ?_⟩
      · rw [specLadder, hs1, List.nil_append, takeToFirstAccept_append, if_pos ha2]
        exact hA.1
      · simp [specLadder, hs1, anyAccepted_append, ha2]
      · intro src i b acc hsh hm hsrc
        exact (try_agent_auth_src_idx env src i b acc hsh hm).2
      · intro ms h
        simp at h
    · have ha2 : anyAccepted (agentSpecOf env) = false := by
        rw [← hA.2]
        exact Bool.not_eq_true _ ▸ h2
      rw [if_neg h2]
      by_cases h3 : (tryDefaults env defaultKeyNames).1
      · have ha3 : anyAccepted (defSpec env defaultKeyNames) = true := by
          rw [← hD.2]; exact h3
        rw [if_pos h3]
        refine ⟨?_, ?_, ?_, ?_⟩
        · rw [attemptsOf_append, hA.1, hD.1,
            specLadder, hs1, List.nil_append, takeToFirstAccept_append,
            if_neg (by rw [ha2]; exact Bool.false_ne_true),
            takeToFirstAccept_of_none ha2]
        · simp [specLadder, hs1, anyAccepted_append, ha3]
        · intro src i b acc hsh hm hsrc
          rcases List.mem_append.mp hm with h | h
          · exact (try_agent_auth_src_idx env src i b acc hsh h).2
          · obtain ⟨n, hn⟩ := tryDefaults_src env _ src i b acc hsh h
            rw [hsrc] at hn
            exact absurd hn (by simp)
        · intro ms h
          simp at h
      · have ha3 : anyAccepted (defSpec env defaultKeyNames) = false := by
          rw [← hD.2]
          exact Bool.not_eq_true _ ▸ h3
        rw [if_neg h3]
        refine ⟨?_, ?_, ?_, ?_⟩
        · rw [attemptsOf_append, hA.1, hD.1,
            specLadder, hs1, List.nil_append, takeToFirstAccept_append,
            if_neg (by rw [ha2]; exact Bool.false_ne_true),
            takeToFirstAccept_of_none ha2]
        · simp [specLadder, hs1, anyAccepted_append, ha2, ha3]
        · intro src i b acc hsh hm hsrc
          rcases List.mem_append.mp hm with h | h
          · exact (try_agent_auth_src_idx env src i b acc hsh h).2
          · obtain ⟨n, hn⟩ := tryDefaults_src env _ src i b acc hsh h
            rw [hsrc] at hn
            exact absurd hn (by simp)
        · intro ms h
          simp only [Except.error.injEq] at h
          rw [← h]
          simp [hident]
  · have hK := key_rung env .identityFile k
    have hs1 : idSpec env
        = (if k.loads then [⟨.identityFile, 0, k.isRsa, k.accepted⟩] else []) := by
      simp [idSpec, hident]
    have hs1short : takeToFirstAccept (idSpec env) = idSpec env := by
      rw [hs1]
      by_cases hl : k.loads
      · rw [if_pos hl]; exact takeToFirstAccept_short _
      · rw [if_neg hl]; rfl
    simp only [authenticate_auto, hident]
    by_cases h1 : (try_key_auth env .identityFile k).1
    · have ha1 : anyAccepted (idSpec env) = true := by rw [hs1, ← hK.2]; exact h1
      rw [if_pos h1]
      refine ⟨?_, ?_, ?_, ?_⟩
      · rw [hK.1, ← hs1, specLadder, List.append_assoc, takeToFirstAccept_append,
          if_pos ha1, hs1short]
      · simp [specLadder, anyAccepted_append, ha1]
      · intro src i b acc hsh hm hsrc
        have := try_key_auth_src env .identityFile k src i b acc hsh hm
        rw [hsrc] at this
        exact absurd this (by simp)
      · intro ms h
        simp at h
    · have ha1 : anyAccepted (idSpec env) = false := by
        rw [hs1, ← hK.2]
        exact Bool.not_eq_true _ ▸ h1
      rw [if_neg h1]
      by_cases h2 : (try_agent_auth env).1
      · have ha2 : anyAccepted (agentSpecOf env) = true := by rw [← hA.2]; exact h2
        rw [if_pos h2]
        refine ⟨?_, ?_, ?_, ?_⟩
        · rw [attemptsOf_append, hK.1, ← hs1, hA.1,
            specLadder, List.append_assoc, takeToFirstAccept_append,
            if_neg (by rw [ha1]; exact Bool.false_ne_true),
            takeToFirstAccept_append, if_pos ha2]
        · simp [specLadder, anyAccepted_append, ha2]
        · intro src i b acc hsh hm hsrc
          rcases List.mem_append.mp hm with h | h
          · have := try_key_auth_src env .identityFile k src i b acc hsh h
            rw [hsrc] at this
            exact absurd this (by simp)
          · exact (try_agent_auth_src_idx env src i b acc hsh h).2
        · intro ms h
          simp at h
      · have ha2 : anyAccepted (agentSpecOf env) = false := by
          rw [← hA.2]
          exact Bool.not_eq_true _ ▸ h2
        rw [if_neg h2]
        by_cases h3 : (tryDefaults env defaultKeyNames).1
        · have ha3 : anyAccepted (defSpec env defaultKeyNames) = true := by
            rw [← hD.2]; exact h3
          rw [if_pos h3]
          refine ⟨?_, ?_, ?_, ?_⟩
          · rw [attemptsOf_append, attemptsOf_append, hK.1, ← hs1, hA.1, hD.1,
              takeToFirstAccept_of_none ha2, List.append_assoc,
              specLadder, List.append_assoc, takeToFirstAccept_append,
              if_neg (by rw [ha1]; exact Bool.false_ne_true),
              takeToFirstAccept_append,
              if_neg (by rw [ha2]; exact Bool.false_ne_true)]
          · simp [specLadder, anyAccepted_append, ha3]
          · intro src i b acc hsh hm hsrc
            rcases List.mem_append.mp hm with h | h
            · rcases List.mem_append.mp h with h' | h'
              · have := try_key_auth_src env .identityFile k src i b acc hsh h'
                rw [hsrc] at this
                exact absurd this (by simp)
              · exact (try_agent_auth_src_idx env src i b acc hsh h').2
            · obtain ⟨n, hn⟩ := tryDefaults_src env _ src i b acc hsh h
              rw [hsrc] at hn
              exact absurd hn (by simp)
          · intro ms h
            simp at h
        · have ha3 : anyAccepted (defSpec env defaultKeyNames) = false := by
            rw [← hD.2]
            exact Bool.not_eq_true _ ▸ h3
          rw [if_neg h3]
          refine ⟨?_, ?_, ?_, ?_⟩
          · rw [attemptsOf_append, attemptsOf_append, hK.1, ← hs1, hA.1, hD.1,
              takeToFirstAccept_of_none ha2, List.append_assoc,
              specLadder, List.append_assoc, takeToFirstAccept_append,
              if_neg (by rw [ha1]; exact Bool.false_ne_true),
              takeToFirstAccept_append,
              if_neg (by rw [ha2]; exact Bool.false_ne_true)]
          · simp [specLadder, anyAccepted_append, ha1, ha2, ha3]
          · intro src i b acc hsh hm hsrc
            rcases List.mem_append.mp hm with h | h
            · rcases List.mem_append.mp h with h' | h'
              · have := try_key_auth_src env .identityFile k src i b acc hsh h'
                rw [hsrc] at this
                exact absurd this (by simp)
              · exact (try_agent_auth_src_idx env src i b acc hsh h').2
            · obtain ⟨n, hn⟩ := tryDefaults_src env _ src i b acc hsh h
              rw [hsrc] at hn
              exact absurd hn (by simp)
          · intro ms h
            simp only [Except.error.injEq] at h
            rw [← h]
            simp [hident]

/-! ## Theorems for the RSA-hash negotiation claim -/

theorem countQueries_agentLoop (cached : Option HashAlg) :
    ∀ (keys : List AgentKey) (i : Nat), countQueries (agentLoop cached keys i).2 = 0 := by
  intro keys
  induction keys with
  | nil => intro i; rfl
  | cons k rest ih =>
    intro i
    by_cases hacc : k.accepted
    · simp [agentLoop, hacc, countQueries]
    · simp only [agentLoop, hacc, Bool.false_eq_true, if_false]
      show countQueries (_ :: _) = 0
      simp only [countQueries, List.countP_cons] at ih ⊢
      simp [ih]

theorem try_key_auth_hash (env : AuthEnv) (src0 : AuthSource) (k : KeyFile) :
    ∀ src i b acc h, AuthEvent.attempt src i b acc h ∈ (try_key_auth env src0 k).2 →
      h = if b then query_rsa_hash env.rsaQuery else none := by
  intro src i b acc h hm
  by_cases hl : k.loads
  · simp [try_key_auth, hl] at hm
    obtain ⟨-, -, hb, -, hh⟩ := hm
    rw [hh, hb, rsa_hash_for_key]
  · simp [try_key_auth, hl] at hm

theorem agentLoop_hash (cached : Option HashAlg) :
    ∀ (keys : List AgentKey) (i0 : Nat) src i b acc h,
      AuthEvent.attempt src i b acc h ∈ (agentLoop cached keys i0).2 →
        h = if b then cached else none := by
  intro keys
  induction keys with
  | nil => intro i0 src i b acc h hm; simp [agentLoop] at hm
  | cons k rest ih =>
    intro i0 src i b acc h hm
    by_cases hacc : k.accepted
    · simp [agentLoop, hacc] at hm
      obtain ⟨-, -, hb, -, hh⟩ := hm
      rw [hh, hb, rsa_hash_for_key]
    · simp only [agentLoop, hacc, Bool.false_eq_true, if_false] at hm
      rcases List.mem_cons.mp hm with hEq | hmem
      · obtain ⟨-, -, hb, -, hh⟩ := AuthEvent.attempt.inj hEq
        rw [hh, hb, rsa_hash_for_key]
      · exact ih (i0 + 1) src i b acc h hmem

theorem try_agent_auth_hash (env : AuthEnv) :
    ∀ src i b acc h, AuthEvent.attempt src i b acc h ∈ (try_agent_auth env).2 →
      h = if b then query_rsa_hash env.rsaQuery else none := by
  intro src i b acc h hm
  unfold try_agent_auth at hm
  by_cases hok : env.agentOk
  · simp only [hok, if_true] at hm
    by_cases hemp : env.agentKeys.isEmpty
    · simp [hemp] at hm
    · simp only [hemp, Bool.false_eq_true, if_false] at hm
      rcases List.mem_cons.mp hm with hEq | hmem
      · exact absurd hEq (by simp)
      · exact agentLoop_hash _ _ _ src i b acc h hmem
  · simp [hok] at hm

theorem tryDefaults_hash (env : AuthEnv) :
    ∀ (names : List String) src i b acc h,
      AuthEvent.attempt src i b acc h ∈ (tryDefaults env names).2 →
        h = if b then query_rsa_hash env.rsaQuery else none := by
  intro names
  induction names with
  | nil => intro src i b acc h hm; simp [tryDefaults] at hm
  | cons n rest ih =>
    intro src i b acc h hm
    rcases hdk : env.defaultKey n with _ | k
    · simp only [tryDefaults, hdk] at hm
      exact ih src i b acc h hm
    · by_cases hr : (try_key_auth env (.defaultKey n) k).1
      · simp only [tryDefaults, hdk, hr, if_true] at hm
        exact try_key_auth_hash env _ k src i b acc h hm
      · have hr' : (try_key_auth env (.defaultKey n) k).1 = false := by
          cases hx : (try_key_auth env (.defaultKey n) k).1
          · rfl
          · exact absurd hx hr
        simp only [tryDefaults, hdk, hr', Bool.false_eq_true, if_false] at hm
        rcases List.mem_append.mp hm with hmem | hmem
        · exact try_key_auth_hash env _ k src i b acc h hmem
        · exact ih src i b acc h hmem

/-- Every event of `authenticate_auto` comes from one of the three rungs. -/
theorem auto_mem (env : AuthEnv) :
    ∀ e ∈ (authenticate_auto env).2,
      (∃ k, env.identity = some k ∧ e ∈ (try_key_auth env .identityFile k).2) ∨
      e ∈ (try_agent_auth env).2 ∨ e ∈ (tryDefaults env defaultKeyNames).2 := by
  intro e he
  rcases hident : env.identity with _ | k <;>
    simp only [authenticate_auto, hident] at he
  · by_cases h2 : (try_agent_auth env).1
    · rw [if_pos h2] at he
      exact Or.inr (Or.inl he)
    · rw [if_neg h2] at he
      by_cases h3 : (tryDefaults env defaultKeyNames).1
      · rw [if_pos h3] at he
        rcases List.mem_append.mp he with h | h
        · exact Or.inr (Or.inl h)
        · exact Or.inr (Or.inr h)
      · rw [if_neg h3] at he
        rcases List.mem_append.mp he with h | h
        · exact Or.inr (Or.inl h)
        · exact Or.inr (Or.inr h)
  · by_cases h1 : (try_key_auth env .identityFile k).1
    · rw [if_pos h1] at he
      exact Or.inl ⟨k, rfl, he⟩
    · rw [if_neg h1] at he
      by_cases h2 : (try_agent_auth env).1
      · rw [if_pos h2] at he
        rcases List.mem_append.mp he with h | h
        · exact Or.inl ⟨k, rfl, h⟩
        · exact Or.inr (Or.inl h)
      · rw [if_neg h2] at he
        by_cases h3 : (tryDefaults env defaultKeyNames).1
        · rw [if_pos h3] at he
          rcases List.mem_append.mp he with h | h
          · rcases List.mem_append.mp h with h' | h'
            · exact Or.inl ⟨k, rfl, h'⟩
            · exact Or.inr (Or.inl h')
          · exact Or.inr (Or.inr h)
        · rw [if_neg h3] at he
          rcases List.mem_append.mp he with h | h
          · rcases List.mem_append.mp h with h' | h'
            · exact Or.inl ⟨k, rfl, h'⟩
            · exact Or.inr (Or.inl h')
          · exact Or.inr (Or.inr h)

/-- The environment of the C3 counterexample: an RSA identity file that
loads but is rejected, an agent with one rejected RSA key, an existing but
rejected `id_ed25519`, and a server advertising SHA-512. -/
def envC3 : AuthEnv :=
  ⟨some ⟨true, true, false⟩, true, [⟨true, false⟩],
   fun n => if n = "id_ed25519" then some ⟨false, true, false⟩ else none,
   .ok (some (some .sha512))⟩

/-- C3 counterexample: in a single session (one `authenticate_auto` run over
one half-open session) the server's best-supported RSA hash is queried three
times — once by the identity-file attempt, once by the agent rung, once by
the default-key attempt — not at most once: `try_key_auth` re-queries on
every invocation instead of reusing a session-wide cache. -/
theorem c3_counterexample :
    countQueries (authenticate_auto envC3).2 = 3 ∧
    ¬ countQueries (authenticate_auto envC3).2 ≤ 1 := by
  refine ⟨by decide, by decide⟩

/-- C3 (amended): the best-supported RSA hash is queried once per key-file
attempt that loads and at most once per agent run — the agent rung queries
once and reuses the cached value across all of its keys — rather than once
per session; every RSA attempt passes the hash derived from the server's
(fixed) answer, which defaults to SHA-256 when the server does not advertise
or the query fails; a non-RSA key is always attempted with no hash hint. -/
theorem c3_rsa_hash_amended :
    (∀ (env : AuthEnv) (src : AuthSource) (i : Nat) (b acc : Bool) (h : Option HashAlg),
      AuthEvent.attempt src i b acc h ∈ (authenticate_auto env).2 →
      h = if b then query_rsa_hash env.rsaQuery else none) ∧
    (∀ env : AuthEnv, countQueries (try_agent_auth env).2 ≤ 1) ∧
    (∀ (env : AuthEnv) (src : AuthSource) (k : KeyFile),
      countQueries (try_key_auth env src k).2 = if k.loads then 1 else 0) ∧
    query_rsa_hash (.ok none) = some .sha256 ∧
    query_rsa_hash (.error ()) = some .sha256 := by
  refine ⟨?_, ?_, ?_, rfl, rfl⟩
  · intro env src i b acc h hm
    rcases auto_mem env _ hm with ⟨k, -, hmem⟩ | hmem | hmem
    · exact try_key_auth_hash env _ k src i b acc h hmem
    · exact try_agent_auth_hash env src i b acc h hmem
    · exact tryDefaults_hash env _ src i b acc h hmem
  · intro env
    unfold try_agent_auth
    by_cases hok : env.agentOk
    · simp only [hok, if_true]
      by_cases hemp : env.agentKeys.isEmpty
      · simp [hemp, countQueries]
      · simp only [hemp, Bool.false_eq_true, if_false]
        have hz := countQueries_agentLoop (query_rsa_hash env.rsaQuery)
          (env.agentKeys.take MAX_AGENT_KEYS) 0
        show countQueries (.rsaQuery ::
          (agentLoop (query_rsa_hash env.rsaQuery)
            (env.agentKeys.take MAX_AGENT_KEYS) 0).2) ≤ 1
        unfold countQueries at hz ⊢
        rw [List.countP_cons, hz]
        simp
    · have hok' : env.agentOk = false := by
        cases hx : env.agentOk
        · rfl
        · exact absurd hx hok
      rw [if_neg (by rw [hok']; exact Bool.false_ne_true)]
      simp [countQueries]
  · intro env src k
    by_cases hl : k.loads <;> simp [try_key_auth, hl, countQueries]

/-- Witness for C3 (amended): the conjuncts applied at the counterexample
environment and a concrete trace event. -/
theorem c3_rsa_hash_amended_witness :
    ((some .sha512 : Option HashAlg)
        = if true then query_rsa_hash envC3.rsaQuery else none) ∧
    countQueries (try_agent_auth envC3).2 ≤ 1 ∧
    countQueries (try_key_auth envC3 .identityFile ⟨true, true, false⟩).2
      = if (true : Bool) then 1 else 0 :=
  ⟨c3_rsa_hash_amended.1 envC3 .identityFile 0 true false (some .sha512) (by decide),
   c3_rsa_hash_amended.2.1 envC3,
   c3_rsa_hash_amended.2.2.1 envC3 .identityFile ⟨true, true, false⟩⟩

/-- The environment of the C4 witness: a rejected RSA identity, two agent
keys of which the second is accepted, no default keys. -/
def envC4 : AuthEnv :=
  ⟨some ⟨true, true, false⟩, true, [⟨false, false⟩, ⟨false, true⟩],
   fun _ => none, .ok none⟩

/-- Witness for C4: the ladder refinement applied at a concrete environment
whose second agent key is accepted, with the success equivalence and the
agent-index cap discharged at a concrete trace event. -/
theorem c4_auto_ladder_witness :
    attemptsOf (authenticate_auto envC4).2 = takeToFirstAccept (specLadder envC4) ∧
    (authenticate_auto envC4).1 = .ok () ∧ (1 : Nat) < 10 :=
  ⟨(c4_auto_ladder envC4).1,
   ((c4_auto_ladder envC4).2.1).mpr (by decide),
   (c4_auto_ladder envC4).2.2.1 .agent 1 false true none (by decide) rfl⟩

/-! ## §6 Session command execution — `src/connection/session.rs`

The remote side is the environment: the messages the channel will deliver,
whether each I/O step succeeds, and the wall-clock duration of each phase
in milliseconds.  `tokio::time::timeout` is modelled as comparing the
wrapped phase's duration against the cap: the phase times out exactly when
its duration exceeds the cap. -/

/-- `russh::ChannelMsg` — the frames the read loop distinguishes. -/
inductive ChanMsg
  | data (bytes : List Nat)
  | extendedData (ext : Nat) (bytes : List Nat)
  | exitStatus (code : Nat)
  | other
deriving DecidableEq, Repr

/-- Environment of one `run_channel` call. -/
structure RunEnv where
  openDurationMs : Nat
  openOk : Bool
  execOk : Bool
  stdinOk : Bool
  stdinDurationMs : Nat
  msgs : List ChanMsg
  readDurationMs : Nat
deriving DecidableEq, Repr

/-- The error cases of `run_channel`. -/
inductive RunError
  | channelOpenTimeout
  | channelOpenFailed
  | execFailed
  | stdinWriteFailed
  | commandTimeout
deriving DecidableEq, Repr

/-- The `force_closed` flag of `SshConnection`. -/
structure ConnState where
  forceClosed : Bool
deriving DecidableEq, Repr

/-- `CHANNEL_OPEN_TIMEOUT_SECS` (src/connection/session.rs line 37), in ms. -/
def CHANNEL_OPEN_TIMEOUT_MS : Nat := 10000

/-- Rust `u32::cast_signed` applied to the SSH exit status. -/
def castSigned32 (n : Nat) : Int :=
  if n < 2 ^ 31 then (n : Int) else (n : Int) - 2 ^ 32

/-- `ChannelOutput` from `src/connection/session.rs`. -/
structure ChannelOutput where
  stdout : List Nat
  stderr : List Nat
  exit_code : Int
deriving DecidableEq, Repr

/-- The exit status recorded by the read loop: each `ExitStatus` frame
overwrites the previous one. -/
def lastExitStatus (msgs : List ChanMsg) : Option Nat :=
  msgs.foldl
    (fun acc m =>
      match m with
      | .exitStatus c => some c
      | _ => acc)
    none

/-- The read loop of `run_channel` (src/connection/session.rs lines
261-284 and 295-299): accumulate `Data` into stdout and `ExtendedData` with
extension 1 into stderr, record the exit status, ignore other frames, and
default the exit code to -1 when no `ExitStatus` arrived. -/
def collectOutput (msgs : List ChanMsg) : ChannelOutput where
  stdout := msgs.flatMap fun m =>
    match m with
    | .data b => b
    | _ => []
  stderr := msgs.flatMap fun m =>
    match m with
    | .extendedData e b => if e = 1 then b else []
    | _ => []
  exit_code :=
    match lastExitStatus msgs with
    | some c => castSigned32 c
    | none => -1

/-- `SshConnection::run_channel` (src/connection/session.rs lines 207-300):
open the channel under a 10 s cap (marking the session force-closed on
expiry), send the exec request, write stdin (unbounded by the per-call
timeout), then run the read loop, bounded by the per-call timeout when one
is supplied. -/
def run_channel (st : ConnState) (env : RunEnv) (stdin : Option (List Nat))
    (timeoutMs : Option Nat) : Except RunError ChannelOutput × ConnState :=
  if CHANNEL_OPEN_TIMEOUT_MS < env.openDurationMs then
    (.error .channelOpenTimeout, ⟨true⟩)
  else if !env.openOk then (.error .channelOpenFailed, st)
  else if !env.execOk then (.error .execFailed, st)
  else if stdin.isSome && !env.stdinOk then (.error .stdinWriteFailed, st)
  else
    match timeoutMs with
    | some ms =>
      if ms < env.readDurationMs then (.error .commandTimeout, st)
      else (.ok (collectOutput env.msgs), st)
    | none => (.ok (collectOutput env.msgs), st)

/-- The replacement character U+FFFD. -/
def replacementChar : Char := Char.ofNat 0xFFFD

/-- A UTF-8 continuation byte. -/
def isCont (x : Nat) : Bool := 0x80 ≤ x && x ≤ 0xBF

/-- Valid range of the first continuation byte for lead byte `b`
(Unicode Table 3-7). -/
def contRange1 (b : Nat) : Nat × Nat :=
  if b = 0xE0 then (0xA0, 0xBF)
  else if b = 0xED then (0x80, 0x9F)
  else if b = 0xF0 then (0x90, 0xBF)
  else if b = 0xF4 then (0x80, 0x8F)
  else (0x80, 0xBF)

/-- Decode one scalar starting at lead byte `b` with the following bytes in
`rest`: the decoded character (or U+FFFD) and how many bytes of `rest` were
consumed.  Invalid input consumes the maximal subpart of an ill-formed
subsequence, as Rust's `String::from_utf8_lossy` does. -/
def utf8DecodeStep (b : Nat) (rest : List Nat) : Char × Nat :=
  if b ≤ 0x7F then (Char.ofNat b, 0)
  else if 0xC2 ≤ b && b ≤ 0xDF then
    match rest with
    | b1 :: _ =>
      if isCont b1 then (Char.ofNat ((b - 0xC0) * 0x40 + (b1 - 0x80)), 1)
      else (replacementChar, 0)
    | _ => (replacementChar, 0)
  else if 0xE0 ≤ b && b ≤ 0xEF then
    match rest with
    | b1 :: rest1 =>
      if (contRange1 b).1 ≤ b1 && b1 ≤ (contRange1 b).2 then
        match rest1 with
        | b2 :: _ =>
          if isCont b2 then
            (Char.ofNat ((b - 0xE0) * 0x1000 + (b1 - 0x80) * 0x40 + (b2 - 0x80)), 2)
          else (replacementChar, 1)
        | _ => (replacementChar, 1)
      else (replacementChar, 0)
    | _ => (replacementChar, 0)
  else if 0xF0 ≤ b && b ≤ 0xF4 then
    match rest with
    | b1 :: rest1 =>
      if (contRange1 b).1 ≤ b1 && b1 ≤ (contRange1 b).2 then
        match rest1 with
        | b2 :: rest2 =>
          if isCont b2 then
            match rest2 with
            | b3 :: _ =>
              if isCont b3 then
                (Char.ofNat ((b - 0xF0) * 0x40000 + (b1 - 0x80) * 0x1000
                  + (b2 - 0x80) * 0x40 + (b3 - 0x80)), 3)
              else (replacementChar, 2)
            | _ => (replacementChar, 2)
          else (replacementChar, 1)
        | _ => (replacementChar, 1)
      else (replacementChar, 0)
    | _ => (replacementChar, 0)
  else (replacementChar, 0)

/-- Fuelled decoding loop; the fuel is an upper bound on the number of
scalars (each step consumes at least the lead byte, so the input length is
enough fuel). -/
def utf8LossyAux : Nat → List Nat → List Char
  | 0, _ => []
  | _, [] => []
  | fuel + 1, b :: rest =>
    (utf8DecodeStep b rest).1 ::
      utf8LossyAux fuel (rest.drop (utf8DecodeStep b rest).2)

/-- Models Rust `String::from_utf8_lossy`: decode the bytes, replacing each
maximal invalid subpart with U+FFFD. -/
def utf8Lossy (bytes : List Nat) : String :=
  String.mk (utf8LossyAux bytes.length bytes)

/-- `ExecResult` from `src/connection/session.rs`. -/
structure ExecResult where
  stdout : String
  stderr : String
  exit_code : Int
deriving DecidableEq, Repr

/-- `ExecRawResult` from `src/connection/session.rs`. -/
structure ExecRawResult where
  stdout : List Nat
  stderr : String
  exit_code : Int
deriving DecidableEq, Repr

/-- `SshConnection::exec` (src/connection/session.rs lines 307-314): run the
channel with no stdin and decode both streams lossily. -/
def exec (st : ConnState) (env : RunEnv) (timeoutMs : Option Nat) :
    Except RunError ExecResult × ConnState :=
  match run_channel st env none timeoutMs with
  | (.ok out, st') =>
    (.ok ⟨utf8Lossy out.stdout, utf8Lossy out.stderr, out.exit_code⟩, st')
  | (.error e, st') => (.error e, st')

/-- `SshConnection::exec_raw` (src/connection/session.rs lines 321-333):
raw stdout bytes, lossily decoded stderr. -/
def exec_raw (st : ConnState) (env : RunEnv) (stdin : Option (List Nat))
    (timeoutMs : Option Nat) : Except RunError ExecRawResult × ConnState :=
  match run_channel st env stdin timeoutMs with
  | (.ok out, st') => (.ok ⟨out.stdout, utf8Lossy out.stderr, out.exit_code⟩, st')
  | (.error e, st') => (.error e, st')

/-- Any successful `run_channel` returns the collected output of the
environment's message stream, with the state unchanged. -/
theorem run_channel_ok (st : ConnState) (env : RunEnv) (stdin : Option (List Nat))
    (ms : Option Nat) :
    ∀ out st', run_channel st env stdin ms = (.ok out, st') →
      out = collectOutput env.msgs ∧ st' = st := by
  intro out st' h
  rcases ms with _ | ms <;>
    (simp only [run_channel] at h
     split_ifs at h <;>
       simp only [Prod.mk.injEq] at h <;>
       first
         | exact ⟨(Except.ok.inj h.1).symm, h.2.symm⟩
         | exact absurd h.1 (by simp))

/-! ## Theorems for the command-timeout claim -/

/-- The environment of the C5 counterexample: every step succeeds, the
stdin write takes 1,000,000 ms, the read loop is instant. -/
def envC5 : RunEnv := ⟨0, true, true, true, 1000000, [], 0⟩

/-- C5 counterexample: with a 100 ms per-call timeout and a stdin write
lasting 1,000,000 ms, `exec_raw` still succeeds — the timeout does not
bound the stdin write, so the claim that it bounds both the stdin write and
the read loop (returning a command-timeout error when exceeded) is false. -/
theorem c5_counterexample :
    100 < envC5.stdinDurationMs ∧
    exec_raw ⟨false⟩ envC5 (some [65]) (some 100)
      = (.ok ⟨[], "", -1⟩, ⟨false⟩) := by
  refine ⟨by decide, rfl⟩

/-- C5 (amended): the per-call timeout bounds only the channel read loop —
the outcome is independent of the stdin-write duration; when the read loop
exceeds the timeout the call returns a command-timeout error; and a
command-timeout never changes the connection state, so the session is not
marked closed and remains usable. -/
theorem c5_timeout_amended :
    (∀ (st : ConnState) (o : Nat) (ok ex si : Bool) (d d' : Nat)
       (m : List ChanMsg) (r : Nat) (stdin : Option (List Nat)) (ms : Option Nat),
      run_channel st ⟨o, ok, ex, si, d, m, r⟩ stdin ms
        = run_channel st ⟨o, ok, ex, si, d', m, r⟩ stdin ms) ∧
    (∀ (st : ConnState) (env : RunEnv) (stdin : Option (List Nat)) (ms : Nat),
      env.openDurationMs ≤ CHANNEL_OPEN_TIMEOUT_MS → env.openOk = true →
      env.execOk = true → env.stdinOk = true → ms < env.readDurationMs →
      run_channel st env stdin (some ms) = (.error .commandTimeout, st)) ∧
    (∀ (st : ConnState) (env : RunEnv) (stdin : Option (List Nat))
       (ms : Option Nat) (st' : ConnState),
      run_channel st env stdin ms = (.error .commandTimeout, st') → st' = st) := by
  refine ⟨?_, ?_, ?_⟩
  · intro st o ok ex si d d' m r stdin ms
    rfl
  · intro st env stdin ms hopen hok hex hsi hread
    simp only [run_channel]
    rw [if_neg (by omega), if_neg (by rw [hok]; simp), if_neg (by rw [hex]; simp),
      if_neg (by rw [hsi]; simp), if_pos hread]
  · intro st env stdin ms st' h
    rcases ms with _ | ms <;>
      (simp only [run_channel] at h
       split_ifs at h <;>
         simp only [Prod.mk.injEq] at h <;>
         first
           | exact h.2.symm
           | exact absurd h.1 (by simp))

/-- Witness for C5 (amended): the three conjuncts applied at concrete
environments. -/
theorem c5_timeout_amended_witness :
    run_channel ⟨false⟩ ⟨0, true, true, true, 7, [], 0⟩ none (some 100)
      = run_channel ⟨false⟩ ⟨0, true, true, true, 9999999, [], 0⟩ none (some 100) ∧
    run_channel ⟨false⟩ ⟨0, true, true, true, 0, [], 500⟩ none (some 100)
      = (.error .commandTimeout, ⟨false⟩) ∧
    (⟨false⟩ : ConnState) = ⟨false⟩ :=
  ⟨c5_timeout_amended.1 ⟨false⟩ 0 true true true 7 9999999 [] 0 none (some 100),
   c5_timeout_amended.2.1 ⟨false⟩ ⟨0, true, true, true, 0, [], 500⟩ none 100
     (by decide) rfl rfl rfl (by decide),
   c5_timeout_amended.2.2 ⟨false⟩ ⟨0, true, true, true, 0, [], 500⟩ none (some 100)
     ⟨false⟩ rfl⟩

/-! ## Theorems for the default-exit-code claim -/

theorem lastExitStatus_of_no_exit :
    ∀ (msgs : List ChanMsg),
      (msgs.all fun m =>
        match m with
        | .exitStatus _ => false
        | _ => true) = true →
      lastExitStatus msgs = none := by
  have haux : ∀ (msgs : List ChanMsg) (acc : Option Nat),
      (msgs.all fun m =>
        match m with
        | .exitStatus _ => false
        | _ => true) = true →
      msgs.foldl
        (fun acc m =>
          match m with
          | .exitStatus c => some c
          | _ => acc) acc = acc := by
    intro msgs
    induction msgs with
    | nil => intro acc _; rfl
    | cons m rest ih =>
      intro acc hall
      rw [List.all_cons, Bool.and_eq_true] at hall
      rw [List.foldl_cons]
      cases m with
      | data b => exact ih acc hall.2
      | extendedData e b => exact ih acc hall.2
      | exitStatus c => exact absurd hall.1 (by simp)
      | other => exact ih acc hall.2
  intro msgs hall
  exact haux msgs none hall

/-- C9: when the read loop terminates at channel EOF without ever receiving
an `ExitStatus` frame, the reported exit code is -1. -/
theorem c9_exit_code_default (st : ConnState) (env : RunEnv)
    (stdin : Option (List Nat)) (ms : Option Nat) :
    (env.msgs.all fun m =>
      match m with
      | .exitStatus _ => false
      | _ => true) = true →
    ∀ out st', run_channel st env stdin ms = (.ok out, st') →
      out.exit_code = -1 := by
  intro hall out st' h
  obtain ⟨hout, -⟩ := run_channel_ok st env stdin ms out st' h
  rw [hout]
  show (match lastExitStatus env.msgs with
    | some c => castSigned32 c
    | none => -1) = -1
  rw [lastExitStatus_of_no_exit env.msgs hall]

/-- Witness for C9: a run delivering only data frames reports exit code -1. -/
theorem c9_exit_code_default_witness :
    (exec ⟨false⟩ ⟨0, true, true, true, 0, [.data [104, 105], .other], 0⟩ none).1
      = .ok ⟨"hi", "", -1⟩ ∧
    (collectOutput [.data [104, 105], .other]).exit_code = -1 :=
  ⟨rfl,
   c9_exit_code_default ⟨false⟩ ⟨0, true, true, true, 0, [.data [104, 105], .other], 0⟩
     none none (by decide) (collectOutput [.data [104, 105], .other]) ⟨false⟩ rfl⟩

/-! ## Theorems for the lossy-decoding claim -/

/-- C10: `exec` never fails on non-UTF-8 output — a successful call's stdout
and stderr strings (and `exec_raw`'s stderr) are the lossy UTF-8 decoding of
the collected channel bytes, with invalid sequences replaced by U+FFFD, as
the concrete decodings show. -/
theorem c10_lossy_decoding :
    (∀ (st : ConnState) (env : RunEnv) (ms : Option Nat) (out : ExecResult)
       (st' : ConnState),
      exec st env ms = (.ok out, st') →
      out.stdout = utf8Lossy (collectOutput env.msgs).stdout ∧
      out.stderr = utf8Lossy (collectOutput env.msgs).stderr) ∧
    (∀ (st : ConnState) (env : RunEnv) (stdin : Option (List Nat))
       (ms : Option Nat) (out : ExecRawResult) (st' : ConnState),
      exec_raw st env stdin ms = (.ok out, st') →
      out.stderr = utf8Lossy (collectOutput env.msgs).stderr ∧
      out.stdout = (collectOutput env.msgs).stdout) ∧
    utf8Lossy [0x68, 0xFF, 0x69] = String.mk ['h', replacementChar, 'i'] ∧
    utf8Lossy [0xE2, 0x82, 0xAC] = String.mk [Char.ofNat 0x20AC] ∧
    utf8Lossy [0xE2, 0x82] = String.mk [replacementChar] := by
  refine ⟨?_, ?_, by decide, by decide, by decide⟩
  · intro st env ms out st' h
    unfold exec at h
    rcases hrun : run_channel st env none ms with ⟨res, st2⟩
    rcases res with e | o <;> rw [hrun] at h <;> simp only [Prod.mk.injEq] at h
    · exact absurd h.1 (by simp)
    · obtain ⟨ho, -⟩ := run_channel_ok st env none ms o st2 hrun
      obtain ⟨h1, -⟩ := h
      rw [← Except.ok.inj h1, ho]
      exact ⟨rfl, rfl⟩
  · intro st env stdin ms out st' h
    unfold exec_raw at h
    rcases hrun : run_channel st env stdin ms with ⟨res, st2⟩
    rcases res with e | o <;> rw [hrun] at h <;> simp only [Prod.mk.injEq] at h
    · exact absurd h.1 (by simp)
    · obtain ⟨ho, -⟩ := run_channel_ok st env stdin ms o st2 hrun
      obtain ⟨h1, -⟩ := h
      rw [← Except.ok.inj h1, ho]
      exact ⟨rfl, rfl⟩

/-- Witness for C10: the implication conjuncts applied to a concrete run
whose stdout bytes are invalid UTF-8. -/
theorem c10_lossy_decoding_witness :
    (⟨String.mk ['h', replacementChar], "", -1⟩ : ExecResult).stdout
      = utf8Lossy (collectOutput [.data [0x68, 0xFF]]).stdout ∧
    (⟨[0x68, 0xFF], "", -1⟩ : ExecRawResult).stderr
      = utf8Lossy (collectOutput [.data [0x68, 0xFF]]).stderr :=
  ⟨(c10_lossy_decoding.1 ⟨false⟩ ⟨0, true, true, true, 0, [.data [0x68, 0xFF]], 0⟩
      none ⟨String.mk ['h', replacementChar], "", -1⟩ ⟨false⟩ rfl).1,
   (c10_lossy_decoding.2.1 ⟨false⟩ ⟨0, true, true, true, 0, [.data [0x68, 0xFF]], 0⟩
      none none ⟨[0x68, 0xFF], "", -1⟩ ⟨false⟩ rfl).1⟩

/-! ## §7 Config hot-reload — `RemoteSessionServer::maybe_reload_config`
(src/server.rs lines 226-287)

The dispatcher state is the in-memory registry, the mtime bookmark and the
pool; `maybe_reload_config` is modelled as the sequence of states after
each lock-protected mutation (the swap of the registry, the update of the
bookmark, each pool removal), which is exactly what concurrent tool calls
can observe. -/

/-- The shared state of `RemoteSessionServer`: `config`, `config_mtime`, and
the pool's `connections` map. -/
structure HubState where
  config : Registry
  configMtime : Option Nat
  pool : Pool

/-- Environment of one `maybe_reload_config` call: whether the config path
resolves, the file's current mtime (`none` when stat fails), and the result
of `ServerRegistry::load`. -/
structure ReloadEnv where
  pathOk : Bool
  fileMtime : Option Nat
  loadResult : Except Unit Registry

/-- The per-alias removals of the eviction loop, one observable state per
`pool.remove`. -/
def evictionTrace (st : HubState) : List String → List HubState
  | [] => []
  | n :: rest =>
    (⟨st.config, st.configMtime, poolUpdate st.pool n none⟩ : HubState) ::
      evictionTrace ⟨st.config, st.configMtime, poolUpdate st.pool n none⟩ rest

/-- `maybe_reload_config` as its sequence of observable states: return
unchanged when the path fails to resolve, the stat fails, the mtime is
unchanged, or the new registry fails to load; otherwise swap the registry,
then update the mtime bookmark, then evict the changed aliases. -/
def reloadTrace (st : HubState) (env : ReloadEnv) : List HubState :=
  if !env.pathOk then [st]
  else
    match env.fileMtime with
    | none => [st]
    | some cur =>
      if st.configMtime = some cur then [st]
      else
        match env.loadResult with
        | .error _ => [st]
        | .ok newCfg =>
          st :: (⟨newCfg, st.configMtime, st.pool⟩ : HubState)
             :: (⟨newCfg, some cur, st.pool⟩ : HubState)
             :: evictionTrace ⟨newCfg, some cur, st.pool⟩
                  (changed_servers st.config newCfg)

theorem evictionTrace_config :
    ∀ (names : List String) (st s : HubState), s ∈ evictionTrace st names →
      s.config = st.config ∧ s.configMtime = st.configMtime := by
  intro names
  induction names with
  | nil => intro st s hs; simp [evictionTrace] at hs
  | cons n rest ih =>
    intro st s hs
    rcases List.mem_cons.mp hs with h | h
    · rw [h]
      exact ⟨rfl, rfl⟩
    · exact ih ⟨st.config, st.configMtime, poolUpdate st.pool n none⟩ s h

/-! ## Theorems for the hot-reload ordering claim -/

/-- C6: hot-reload order — in every state a concurrent task can observe
during a reload that was triggered by a changed mtime and whose load
succeeded, seeing the new mtime in the bookmark implies seeing the new
registry (the registry is swapped before the bookmark is updated); and when
the changed file fails to parse, the whole call leaves the state untouched
(old registry and old bookmark kept). -/
theorem c6_reload_ordering :
    (∀ (st : HubState) (env : ReloadEnv) (cur : Nat) (newCfg : Registry),
      env.fileMtime = some cur → st.configMtime ≠ some cur →
      env.loadResult = .ok newCfg →
      ∀ s ∈ reloadTrace st env, s.configMtime = some cur → s.config = newCfg) ∧
    (∀ (st : HubState) (env : ReloadEnv) (e : Unit),
      env.loadResult = .error e → reloadTrace st env = [st]) := by
  constructor
  · intro st env cur newCfg hmt hne hload s hs hscur
    unfold reloadTrace at hs
    by_cases hp : env.pathOk
    · rw [hp] at hs
      simp only [Bool.not_true, Bool.false_eq_true, if_false, hmt] at hs
      rw [if_neg hne] at hs
      simp only [hload] at hs
      rcases List.mem_cons.mp hs with h | h
      · rw [h] at hscur
        exact absurd hscur hne
      rcases List.mem_cons.mp h with h' | h'
      · rw [h'] at hscur
        exact absurd hscur hne
      rcases List.mem_cons.mp h' with h2 | h2
      · rw [h2]
      · exact ((evictionTrace_config _ _ s h2).1).trans rfl
    · have hp' : env.pathOk = false := by
        cases hx : env.pathOk
        · rfl
        · exact absurd hx hp
      rw [hp'] at hs
      simp only [Bool.not_false, if_true, List.mem_singleton] at hs
      rw [hs] at hscur
      exact absurd hscur hne
  · intro st env e hload
    unfold reloadTrace
    by_cases hp : env.pathOk
    · rw [hp]
      simp only [Bool.not_true, Bool.false_eq_true, if_false]
      rcases hmt : env.fileMtime with _ | cur
      · simp [hmt]
      · simp only [hmt]
        by_cases hcur : st.configMtime = some cur
        · rw [if_pos hcur]
        · rw [if_neg hcur]
          simp only [hload]
    · have hp' : env.pathOk = false := by
        cases hx : env.pathOk
        · rfl
        · exact absurd hx hp
      rw [hp']
      rfl

/-- Witness for C6: a concrete reload from mtime 1 to 2 whose parse
succeeds never pairs the new mtime with the old registry, and a failing
parse leaves the state untouched. -/
theorem c6_reload_ordering_witness :
    ((⟨[], some 2, fun _ => none⟩ : HubState) ∈
        reloadTrace ⟨[("prod", ⟨"h", "u", 22, "/x", none, .auto, none⟩)], some 1, fun _ => none⟩
          ⟨true, some 2, .ok []⟩ →
      (⟨[], some 2, fun _ => none⟩ : HubState).configMtime = some 2 →
      (⟨[], some 2, fun _ => none⟩ : HubState).config = []) ∧
    reloadTrace ⟨[], some 1, fun _ => none⟩ ⟨true, some 2, .error ()⟩
      = [⟨[], some 1, fun _ => none⟩] :=
  ⟨fun hmem => c6_reload_ordering.1
      ⟨[("prod", ⟨"h", "u", 22, "/x", none, .auto, none⟩)], some 1, fun _ => none⟩
      ⟨true, some 2, .ok []⟩ 2 [] rfl (by simp) rfl _ hmem,
   c6_reload_ordering.2 ⟨[], some 1, fun _ => none⟩ ⟨true, some 2, .error ()⟩ () rfl⟩

/-! ## Theorems for the shell-escape utilities -/

/-- C7: `shell_escape(s)` equals `s` wrapped in single quotes with each
embedded quote replaced by the four-character sequence quote-backslash-
quote-quote (so `shell_escape("it's") = "'it'\''s'"`); and
`shell_escape_remote_path(p)` is `$HOME` for `~`, `$HOME/` followed by
`shell_escape(rest)` for `~/rest` (so `~/pro ject` maps to
`$HOME/'pro ject'`), and `shell_escape(p)` otherwise — the leading tilde is
never itself single-quoted. -/
theorem c7_shell_escape_spec :
    (∀ s : String, (shell_escape s).data
      = '\'' :: (s.data.flatMap fun c =>
          if c = '\'' then ['\'', '\\', '\'', '\''] else [c]) ++ ['\'']) ∧
    shell_escape (String.mk ['i', 't', '\'', 's'])
      = String.mk ['\'', 'i', 't', '\'', '\\', '\'', '\'', 's', '\''] ∧
    shell_escape_remote_path (String.mk ['~']) = "$HOME" ∧
    (∀ rest : List Char,
      shell_escape_remote_path (String.mk ('~' :: '/' :: rest))
        = "$HOME/" ++ shell_escape (String.mk rest)) ∧
    shell_escape_remote_path "~/pro ject"
      = "$HOME/" ++ String.mk ['\'', 'p', 'r', 'o', ' ', 'j', 'e', 'c', 't', '\''] ∧
    (∀ p : String, p ≠ String.mk ['~'] →
      (∀ rest : List Char, p.data ≠ '~' :: '/' :: rest) →
      shell_escape_remote_path p = shell_escape p) := by
  refine ⟨fun s => rfl, by decide, by decide, ?_, by decide, ?_⟩
  · intro rest
    have hne : String.mk ('~' :: '/' :: rest) ≠ String.mk ['~'] := by
      intro h
      have hd := congrArg String.data h
      simp at hd
    unfold shell_escape_remote_path
    rw [if_neg hne]
    rfl
  · intro p h1 h2
    unfold shell_escape_remote_path
    rw [if_neg h1]
    rcases hd : p.data with _ | ⟨c, tail⟩
    · rfl
    · rcases tail with _ | ⟨c2, rest⟩
      · by_cases hc : c = '~' <;> simp [hc]
      · by_cases hc : c = '~'
        · by_cases hc2 : c2 = '/'
          · exact absurd (by rw [hd, hc, hc2]) (h2 rest)
          · subst hc; simp [hc2]
        · simp [hc]

/-- Witness for C7: the universally quantified conjuncts applied at concrete
inputs, with their hypotheses discharged concretely. -/
theorem c7_shell_escape_spec_witness :
    (shell_escape "ab").data
      = '\'' :: ("ab".data.flatMap fun c =>
          if c = '\'' then ['\'', '\\', '\'', '\''] else [c]) ++ ['\''] ∧
    shell_escape_remote_path (String.mk ['~', '/', 'a'])
      = "$HOME/" ++ shell_escape (String.mk ['a']) ∧
    shell_escape_remote_path (String.mk ['/', 'a'])
      = shell_escape (String.mk ['/', 'a']) := by
  refine ⟨c7_shell_escape_spec.1 "ab",
          c7_shell_escape_spec.2.2.2.1 ['a'],
          c7_shell_escape_spec.2.2.2.2.2 (String.mk ['/', 'a']) (by decide) ?_⟩
  intro rest h
  injection h with h1 _
  exact absurd h1 (by decide)

/-! ## Theorems for connection-string parsing -/

/-- C8: `parse_connection_string` with no port override maps
`deploy@staging.example.com:2222:/var/www/app` to the four-field record with
user `deploy`, host `staging.example.com`, port 2222 and path
`/var/www/app`; maps `user@host` to port 22 and path `~`; maps
`user@host:2222` to port 2222 and path `~`; and rejects
`user@host:notaport`. -/
theorem c8_parse_connection_string :
    parse_connection_string "deploy@staging.example.com:2222:/var/www/app" none
      = .ok ⟨"deploy", "staging.example.com", 2222, "/var/www/app"⟩ ∧
    parse_connection_string "user@host" none
      = .ok ⟨"user", "host", 22, String.mk ['~']⟩ ∧
    parse_connection_string "user@host:2222" none
      = .ok ⟨"user", "host", 2222, String.mk ['~']⟩ ∧
    (parse_connection_string "user@host:notaport" none).isOk = false := by
  refine ⟨rfl, rfl, rfl, rfl⟩

end SshHub
